import Mathlib

/-!
Verification of the group allocator in `tools/assign_nouveau_groupe.py`.

The allocator assigns each student record to one of 23 capacity-bounded
groups, subject to period and internal-placement ("stage") eligibility
constraints, choosing among the eligible and available groups the one
minimizing a lexicographic score (occupancy, same-source-group count,
same-profession count, group number).

The Python state (`defaultdict(int)` counters) is embedded as total
functions with default value 0; the record list processing of `main` is
embedded as `run_allocation`.
-/

/-- Capacity table built in `GroupAllocator.__init__`: groups 1-4 have
capacity 8, groups 5-22 capacity 7, group 23 capacity 6.  The Python dict
is only ever indexed with keys in [1,23]; outside that range we return 0. -/
def capacities (g : Nat) : Nat :=
  if 1 ≤ g ∧ g ≤ 4 then 8
  else if 5 ≤ g ∧ g ≤ 22 then 7
  else if g = 23 then 6
  else 0

/-- `self.p1_groups`: allowed destination groups for period P1 (as the
sorted list that `sorted` produces from the Python set). -/
def p1_groups : List Nat := [1, 2, 3, 4, 17, 18, 19, 20, 21, 22, 23]

/-- `self.p2_groups`: allowed destination groups for period P2. -/
def p2_groups : List Nat := [1, 2, 3, 4, 5, 6, 7, 8, 9, 10, 11, 12, 13, 14, 15, 16]

/-- `self.stage_forbidden`: groups forbidden when the stage flag is true. -/
def stage_forbidden : List Nat := [1, 2, 3, 4]

/-- Allocator state: `group_counts`, `group_source_groupes` and
`group_metiers` are the three `defaultdict` counters of the Python class,
embedded as total functions with default 0. -/
structure GroupAllocator where
  group_counts : Nat → Nat
  group_source_groupes : Nat → String → Nat
  group_metiers : Nat → String → Nat

/-- Fresh allocator: all counters are the `defaultdict` default 0. -/
def GroupAllocator.init : GroupAllocator :=
  { group_counts := fun _ => 0
    group_source_groupes := fun _ _ => 0
    group_metiers := fun _ _ => 0 }

/-- The period/stage eligibility set, before the availability filter: the
period's allowed set with `stage_forbidden` removed when the flag is set
(first half of `get_allowed_groups`).  An unrecognized period gives []. -/
def eligibility_set (periode : String) (stage_oui : Bool) : List Nat :=
  let base := if periode = "P1" then p1_groups
    else if periode = "P2" then p2_groups
    else []
  if stage_oui then base.filter (fun g => decide (g ∉ stage_forbidden)) else base

/-- `GroupAllocator.get_allowed_groups`: the eligibility set restricted to
groups with available capacity, in sorted order (the base lists are sorted,
so filtering matches the `sorted` call in the source). -/
def get_allowed_groups (a : GroupAllocator) (periode : String) (stage_oui : Bool) : List Nat :=
  (eligibility_set periode stage_oui).filter
    (fun g => decide (a.group_counts g < capacities g))

/-- `GroupAllocator.score_group`: the scoring tuple
`(current_count, source_groupe_count, metier_count, group_number)`. -/
def score_group (a : GroupAllocator) (group : Nat) (source_groupe metier : String) :
    Nat × Nat × Nat × Nat :=
  (a.group_counts group,
   a.group_source_groupes group source_groupe,
   a.group_metiers group metier,
   group)

/-- Strict lexicographic order on scoring tuples: exactly Python's `<`
on 4-tuples of ints, which is what `min(..., key=...)` compares. -/
def score_lt (s t : Nat × Nat × Nat × Nat) : Prop :=
  s.1 < t.1 ∨ (s.1 = t.1 ∧
    (s.2.1 < t.2.1 ∨ (s.2.1 = t.2.1 ∧
      (s.2.2.1 < t.2.2.1 ∨ (s.2.2.1 = t.2.2.1 ∧ s.2.2.2 < t.2.2.2)))))

instance score_lt_decidable (s t : Nat × Nat × Nat × Nat) : Decidable (score_lt s t) := by
  unfold score_lt; infer_instance

/-- Python `min(xs, key=f)` on a non-empty list `g :: gs`: fold over the
tail keeping the current best, replacing it only on a strictly smaller
key, so the first element attaining the minimum wins. -/
def best_of (f : Nat → Nat × Nat × Nat × Nat) (g : Nat) (gs : List Nat) : Nat :=
  gs.foldl (fun best h => if score_lt (f h) (f best) then h else best) g

/-- `GroupAllocator.allocate_student`: returns the chosen group (or none)
together with the updated allocator state.  On success the occupancy,
source-group histogram and profession histogram of the chosen group are
each incremented. -/
def allocate_student (a : GroupAllocator) (periode : String) (stage_oui : Bool)
    (source_groupe metier : String) : Option Nat × GroupAllocator :=
  match get_allowed_groups a periode stage_oui with
  | [] => (none, a)
  | g :: gs =>
      let best := best_of (fun h => score_group a h source_groupe metier) g gs
      (some best,
        { group_counts := fun h =>
            if h = best then a.group_counts h + 1 else a.group_counts h
          group_source_groupes := fun h l =>
            if h = best ∧ l = source_groupe then a.group_source_groupes h l + 1
            else a.group_source_groupes h l
          group_metiers := fun h l =>
            if h = best ∧ l = metier then a.group_metiers h l + 1
            else a.group_metiers h l })

/-- `GroupAllocator.validate_allocation`: re-checks capacity, the period
constraint and the stage constraint on the current state. -/
def validate_allocation (a : GroupAllocator) (group : Nat) (periode : String)
    (stage_oui : Bool) : Bool :=
  if a.group_counts group > capacities group then false
  else if periode = "P1" ∧ group ∉ p1_groups then false
  else if periode = "P2" ∧ group ∉ p2_groups then false
  else if stage_oui ∧ group ∈ stage_forbidden then false
  else true

/-- A student record as read by `read_data_source` (tab-separated fields). -/
structure Row where
  line_num : String
  metier : String
  choix_master : String
  groupe : String
  stage : String
  periode : String
  nouveau_groupe : String
deriving DecidableEq

/-- One iteration of the allocation loop in `main`: allocate the student
and overwrite `nouveau_groupe` with the chosen group's decimal string, or
with the empty string when allocation is impossible. -/
def process_row (a : GroupAllocator) (r : Row) : Row × GroupAllocator :=
  let res := allocate_student a r.periode (r.stage == "oui") r.groupe r.metier
  match res.1 with
  | some g => ({ r with nouveau_groupe := toString g }, res.2)
  | none => ({ r with nouveau_groupe := "" }, res.2)

/-- The full allocation pass of `main` over the record list, threading the
allocator state left to right. -/
def run_allocation (a : GroupAllocator) : List Row → List Row × GroupAllocator
  | [] => ([], a)
  | r :: rs =>
      let pr := process_row a r
      let rest := run_allocation pr.2 rs
      (pr.1 :: rest.1, rest.2)

example : get_allowed_groups GroupAllocator.init "P1" true = [17, 18, 19, 20, 21, 22, 23] := by
  decide

example : (allocate_student GroupAllocator.init "P1" true "GA" "M1").1 = some 17 := by
  decide

example : (allocate_student GroupAllocator.init "P3" false "GA" "M1").1 = none := by
  decide

/-! ## Helper lemmas -/

lemma score_lt_irrefl (s : Nat × Nat × Nat × Nat) : ¬ score_lt s s := by
  obtain ⟨s1, s2, s3, s4⟩ := s
  simp only [score_lt]
  omega

lemma score_lt_trans {s t u : Nat × Nat × Nat × Nat}
    (h1 : score_lt s t) (h2 : score_lt t u) : score_lt s u := by
  obtain ⟨s1, s2, s3, s4⟩ := s
  obtain ⟨t1, t2, t3, t4⟩ := t
  obtain ⟨u1, u2, u3, u4⟩ := u
  simp only [score_lt] at h1 h2 ⊢
  omega

lemma score_lt_of_not_lt_of_lt {s t u : Nat × Nat × Nat × Nat}
    (h1 : ¬ score_lt s t) (h2 : score_lt s u) : score_lt t u := by
  obtain ⟨s1, s2, s3, s4⟩ := s
  obtain ⟨t1, t2, t3, t4⟩ := t
  obtain ⟨u1, u2, u3, u4⟩ := u
  simp only [score_lt] at h1 h2 ⊢
  omega

/-- Scores of distinct groups are strictly comparable: the group number is
the last tuple component, so no two distinct groups ever tie completely. -/
lemma score_lt_of_ne {s t : Nat × Nat × Nat × Nat} (h : s.2.2.2 ≠ t.2.2.2) :
    score_lt s t ∨ score_lt t s := by
  obtain ⟨s1, s2, s3, s4⟩ := s
  obtain ⟨t1, t2, t3, t4⟩ := t
  simp only [score_lt]
  simp only at h
  omega

lemma best_of_cons (f : Nat → Nat × Nat × Nat × Nat) (g x : Nat) (xs : List Nat) :
    best_of f g (x :: xs) = best_of f (if score_lt (f x) (f g) then x else g) xs := rfl

lemma best_of_mem (f : Nat → Nat × Nat × Nat × Nat) (gs : List Nat) :
    ∀ g, best_of f g gs = g ∨ best_of f g gs ∈ gs := by
  induction gs with
  | nil => intro g; left; rfl
  | cons x xs ih =>
      intro g
      rw [best_of_cons]
      by_cases hx : score_lt (f x) (f g)
      · rw [if_pos hx]
        rcases ih x with h | h
        · right; rw [h]; exact List.mem_cons_self x xs
        · right; exact List.mem_cons_of_mem x h
      · rw [if_neg hx]
        rcases ih g with h | h
        · left; exact h
        · right; exact List.mem_cons_of_mem x h

lemma best_of_min (f : Nat → Nat × Nat × Nat × Nat) (gs : List Nat) :
    ∀ g h, h = g ∨ h ∈ gs → ¬ score_lt (f h) (f (best_of f g gs)) := by
  induction gs with
  | nil =>
      intro g h hm
      rcases hm with rfl | hm
      · exact score_lt_irrefl (f h)
      · cases hm
  | cons x xs ih =>
      intro g h hm
      rw [best_of_cons]
      by_cases hx : score_lt (f x) (f g)
      · rw [if_pos hx]
        rcases hm with heq | hm
        · -- h = g; the new seed is x with f x < f g
          rw [heq]
          intro hc
          exact ih x x (Or.inl rfl) (score_lt_trans hx hc)
        · rcases List.mem_cons.mp hm with heq | hm
          · rw [heq]; exact ih x x (Or.inl rfl)
          · exact ih x h (Or.inr hm)
      · rw [if_neg hx]
        rcases hm with heq | hm
        · rw [heq]; exact ih g g (Or.inl rfl)
        · rcases List.mem_cons.mp hm with heq | hm
          · -- h = x with ¬ f x < f g
            rw [heq]
            intro hc
            exact ih g g (Or.inl rfl) (score_lt_of_not_lt_of_lt hx hc)
          · exact ih g h (Or.inr hm)

lemma mem_get_allowed_iff {a : GroupAllocator} {p : String} {s : Bool} {g : Nat} :
    g ∈ get_allowed_groups a p s ↔
      g ∈ eligibility_set p s ∧ a.group_counts g < capacities g := by
  simp [get_allowed_groups, List.mem_filter]

lemma eligibility_subset_base {p : String} {s : Bool} {g : Nat}
    (h : g ∈ eligibility_set p s) :
    g ∈ (if p = "P1" then p1_groups else if p = "P2" then p2_groups else []) := by
  unfold eligibility_set at h
  cases s with
  | false => exact h
  | true => exact (List.mem_filter.mp h).1

lemma eligibility_stage {p : String} {g : Nat} (h : g ∈ eligibility_set p true) :
    g ∉ stage_forbidden := by
  unfold eligibility_set at h
  have := (List.mem_filter.mp h).2
  simpa using this

lemma eligibility_range {p : String} {s : Bool} {g : Nat} (h : g ∈ eligibility_set p s) :
    1 ≤ g ∧ g ≤ 23 := by
  have hb := eligibility_subset_base h
  by_cases h1 : p = "P1"
  · rw [if_pos h1] at hb
    simp [p1_groups] at hb
    omega
  · rw [if_neg h1] at hb
    by_cases h2 : p = "P2"
    · rw [if_pos h2] at hb
      simp [p2_groups] at hb
      omega
    · rw [if_neg h2] at hb
      cases hb

lemma allocate_none_iff {a : GroupAllocator} {p sg m : String} {s : Bool} :
    (allocate_student a p s sg m).1 = none ↔ get_allowed_groups a p s = [] := by
  rcases hg : get_allowed_groups a p s with _ | ⟨x, xs⟩ <;>
    simp [allocate_student, hg]

lemma allocate_some_best {a : GroupAllocator} {p sg m : String} {s : Bool} {x : Nat}
    {xs : List Nat} (hg : get_allowed_groups a p s = x :: xs) :
    (allocate_student a p s sg m).1 =
      some (best_of (fun h => score_group a h sg m) x xs) := by
  simp [allocate_student, hg]

lemma allocate_some_spec {a : GroupAllocator} {p sg m : String} {s : Bool} {g : Nat}
    (h : (allocate_student a p s sg m).1 = some g) :
    g ∈ get_allowed_groups a p s ∧
      ∀ h2 ∈ get_allowed_groups a p s,
        ¬ score_lt (score_group a h2 sg m) (score_group a g sg m) := by
  rcases hg : get_allowed_groups a p s with _ | ⟨x, xs⟩
  · rw [allocate_none_iff.mpr hg] at h; cases h
  · rw [allocate_some_best hg] at h
    obtain rfl := Option.some.inj h
    constructor
    · rcases best_of_mem (fun h => score_group a h sg m) xs x with h | h
      · rw [h]; exact List.mem_cons_self x xs
      · exact List.mem_cons_of_mem x h
    · intro h2 hm
      rcases List.mem_cons.mp hm with heq | hm
      · rw [heq]
        exact best_of_min (fun h => score_group a h sg m) xs x x (Or.inl rfl)
      · exact best_of_min (fun h => score_group a h sg m) xs x h2 (Or.inr hm)

lemma allocate_none_state {a : GroupAllocator} {p sg m : String} {s : Bool}
    (h : (allocate_student a p s sg m).1 = none) :
    (allocate_student a p s sg m).2 = a := by
  rcases hg : get_allowed_groups a p s with _ | ⟨x, xs⟩
  · simp [allocate_student, hg]
  · rw [allocate_some_best hg] at h; cases h

lemma allocate_some_counts {a : GroupAllocator} {p sg m : String} {s : Bool} {g : Nat}
    (h : (allocate_student a p s sg m).1 = some g) (h2 : Nat) :
    (allocate_student a p s sg m).2.group_counts h2 =
      if h2 = g then a.group_counts h2 + 1 else a.group_counts h2 := by
  rcases hg : get_allowed_groups a p s with _ | ⟨x, xs⟩
  · rw [allocate_none_iff.mpr hg] at h; cases h
  · rw [allocate_some_best hg] at h
    obtain rfl := Option.some.inj h
    simp [allocate_student, hg]

lemma allocate_some_sources {a : GroupAllocator} {p sg m : String} {s : Bool} {g : Nat}
    (h : (allocate_student a p s sg m).1 = some g) (h2 : Nat) (l : String) :
    (allocate_student a p s sg m).2.group_source_groupes h2 l =
      if h2 = g ∧ l = sg then a.group_source_groupes h2 l + 1
      else a.group_source_groupes h2 l := by
  rcases hg : get_allowed_groups a p s with _ | ⟨x, xs⟩
  · rw [allocate_none_iff.mpr hg] at h; cases h
  · rw [allocate_some_best hg] at h
    obtain rfl := Option.some.inj h
    simp [allocate_student, hg]

lemma allocate_some_metiers {a : GroupAllocator} {p sg m : String} {s : Bool} {g : Nat}
    (h : (allocate_student a p s sg m).1 = some g) (h2 : Nat) (l : String) :
    (allocate_student a p s sg m).2.group_metiers h2 l =
      if h2 = g ∧ l = m then a.group_metiers h2 l + 1
      else a.group_metiers h2 l := by
  rcases hg : get_allowed_groups a p s with _ | ⟨x, xs⟩
  · rw [allocate_none_iff.mpr hg] at h; cases h
  · rw [allocate_some_best hg] at h
    obtain rfl := Option.some.inj h
    simp [allocate_student, hg]

/-- The capacity invariant the report calls "capacity verification":
every group in [1,23] holds at most its capacity. -/
def CapInv (a : GroupAllocator) : Prop :=
  ∀ g, 1 ≤ g → g ≤ 23 → a.group_counts g ≤ capacities g

lemma capInv_init : CapInv GroupAllocator.init :=
  fun g _ _ => Nat.zero_le (capacities g)

lemma capInv_allocate (a : GroupAllocator) (p : String) (s : Bool) (sg m : String)
    (h : CapInv a) : CapInv (allocate_student a p s sg m).2 := by
  intro g h1 h23
  cases hres : (allocate_student a p s sg m).1 with
  | none => rw [allocate_none_state hres]; exact h g h1 h23
  | some b =>
      rw [allocate_some_counts hres g]
      by_cases hgb : g = b
      · rw [if_pos hgb]
        have hmem := (allocate_some_spec hres).1
        have hlt := (mem_get_allowed_iff.mp hmem).2
        rw [hgb]
        omega
      · rw [if_neg hgb]
        exact h g h1 h23

lemma process_row_state (a : GroupAllocator) (r : Row) :
    (process_row a r).2 =
      (allocate_student a r.periode (r.stage == "oui") r.groupe r.metier).2 := by
  simp only [process_row]
  split <;> rfl

lemma capInv_run (rows : List Row) :
    ∀ a : GroupAllocator, CapInv a → CapInv (run_allocation a rows).2 := by
  induction rows with
  | nil => intro a h; exact h
  | cons r rs ih =>
      intro a h
      simp only [run_allocation]
      apply ih
      rw [process_row_state]
      exact capInv_allocate a r.periode (r.stage == "oui") r.groupe r.metier h

/-! ## Claim theorems -/

/-- C1: Capacity invariant: allocating a student preserves
`group_counts[g] ≤ capacities[g]` for every group g in [1,23], so after
every call to `allocate_student` — in particular at the end of the full
run from a fresh allocator — no group exceeds its capacity (8 for groups
1-4, 7 for groups 5-22, 6 for group 23). -/
theorem allocator_capacity_invariant :
    (∀ (a : GroupAllocator) (p : String) (s : Bool) (sg m : String),
      CapInv a → CapInv (allocate_student a p s sg m).2) ∧
    (∀ rows : List Row, CapInv (run_allocation GroupAllocator.init rows).2) :=
  ⟨capInv_allocate, fun rows => capInv_run rows GroupAllocator.init capInv_init⟩

theorem allocator_capacity_invariant_witness :
    (allocate_student GroupAllocator.init "P1" false "GA" "M1").2.group_counts 1 ≤
      capacities 1 :=
  allocator_capacity_invariant.1 GroupAllocator.init "P1" false "GA" "M1"
    capInv_init 1 (by decide) (by decide)

/-- C2: Eligibility invariant: a group returned by `allocate_student` lies
in the P1 set when the period is P1, in the P2 set when the period is P2,
and outside the forbidden set {1,2,3,4} when the stage flag is true. -/
theorem allocation_eligibility (a : GroupAllocator) (p : String) (s : Bool)
    (sg m : String) (g : Nat) (h : (allocate_student a p s sg m).1 = some g) :
    (p = "P1" → g ∈ p1_groups) ∧ (p = "P2" → g ∈ p2_groups) ∧
    (s = true → g ∉ stage_forbidden) := by
  have hmem := (allocate_some_spec h).1
  have he := (mem_get_allowed_iff.mp hmem).1
  refine ⟨?_, ?_, ?_⟩
  · intro hp
    have hb := eligibility_subset_base he
    rw [hp, if_pos rfl] at hb
    exact hb
  · intro hp
    have hb := eligibility_subset_base he
    rw [hp, if_neg (by decide), if_pos rfl] at hb
    exact hb
  · intro hs
    rw [hs] at he
    exact eligibility_stage he

theorem allocation_eligibility_witness :
    (17 : Nat) ∈ p1_groups ∧ (17 : Nat) ∉ stage_forbidden :=
  ⟨(allocation_eligibility GroupAllocator.init "P1" true "GA" "M1" 17 (by decide)).1 rfl,
   (allocation_eligibility GroupAllocator.init "P1" true "GA" "M1" 17 (by decide)).2.2 rfl⟩

/-- C5: Validator unreachability: any group returned by `allocate_student`
passes `validate_allocation` on the post-allocation state, so the fatal
abort branch of `main` can never fire on an allocation the algorithm
itself produced. -/
theorem validator_never_fails (a : GroupAllocator) (p : String) (s : Bool)
    (sg m : String) (g : Nat) (h : (allocate_student a p s sg m).1 = some g) :
    validate_allocation (allocate_student a p s sg m).2 g p s = true := by
  have hmem := (allocate_some_spec h).1
  obtain ⟨he, hlt⟩ := mem_get_allowed_iff.mp hmem
  have hc := allocate_some_counts h g
  rw [if_pos rfl] at hc
  simp only [validate_allocation]
  split
  · rename_i hcond
    exfalso
    rw [hc] at hcond
    omega
  · split
    · rename_i hcond
      exfalso
      obtain ⟨hp, hng⟩ := hcond
      apply hng
      have hb := eligibility_subset_base he
      rw [hp, if_pos rfl] at hb
      exact hb
    · split
      · rename_i hcond
        exfalso
        obtain ⟨hp, hng⟩ := hcond
        apply hng
        have hb := eligibility_subset_base he
        rw [hp, if_neg (by decide), if_pos rfl] at hb
        exact hb
      · split
        · rename_i hcond
          exfalso
          obtain ⟨hs, hgf⟩ := hcond
          rw [hs] at he
          exact eligibility_stage he hgf
        · rfl

theorem validator_never_fails_witness :
    validate_allocation (allocate_student GroupAllocator.init "P1" true "GA" "M1").2
      17 "P1" true = true :=
  validator_never_fails GroupAllocator.init "P1" true "GA" "M1" 17 (by decide)

/-- C9: Atomicity: when `allocate_student` returns none the state is left
entirely unchanged, and on success exactly the chosen group's occupancy,
its source-group histogram entry and its profession histogram entry are
incremented, every other entry being untouched. -/
theorem allocate_failure_atomic (a : GroupAllocator) (p : String) (s : Bool)
    (sg m : String) :
    ((allocate_student a p s sg m).1 = none → (allocate_student a p s sg m).2 = a) ∧
    (∀ g, (allocate_student a p s sg m).1 = some g →
      (allocate_student a p s sg m).2.group_counts g = a.group_counts g + 1 ∧
      (allocate_student a p s sg m).2.group_source_groupes g sg =
        a.group_source_groupes g sg + 1 ∧
      (allocate_student a p s sg m).2.group_metiers g m = a.group_metiers g m + 1 ∧
      (∀ h2, h2 ≠ g →
        (allocate_student a p s sg m).2.group_counts h2 = a.group_counts h2 ∧
        ∀ l, (allocate_student a p s sg m).2.group_source_groupes h2 l =
               a.group_source_groupes h2 l ∧
             (allocate_student a p s sg m).2.group_metiers h2 l =
               a.group_metiers h2 l) ∧
      (∀ l, l ≠ sg →
        (allocate_student a p s sg m).2.group_source_groupes g l =
          a.group_source_groupes g l) ∧
      (∀ l, l ≠ m →
        (allocate_student a p s sg m).2.group_metiers g l = a.group_metiers g l)) := by
  refine ⟨allocate_none_state, fun g h => ⟨?_, ?_, ?_, ?_, ?_, ?_⟩⟩
  · rw [allocate_some_counts h g, if_pos rfl]
  · rw [allocate_some_sources h g sg, if_pos ⟨rfl, rfl⟩]
  · rw [allocate_some_metiers h g m, if_pos ⟨rfl, rfl⟩]
  · intro h2 hne
    refine ⟨?_, fun l => ⟨?_, ?_⟩⟩
    · rw [allocate_some_counts h h2, if_neg hne]
    · rw [allocate_some_sources h h2 l, if_neg (fun hc => hne hc.1)]
    · rw [allocate_some_metiers h h2 l, if_neg (fun hc => hne hc.1)]
  · intro l hl
    rw [allocate_some_sources h g l, if_neg (fun hc => hl hc.2)]
  · intro l hl
    rw [allocate_some_metiers h g l, if_neg (fun hc => hl hc.2)]

theorem allocate_failure_atomic_witness :
    (allocate_student GroupAllocator.init "P3" false "GA" "M1").2 = GroupAllocator.init :=
  (allocate_failure_atomic GroupAllocator.init "P3" false "GA" "M1").1 (by decide)

/-- C3: Selection rule: whenever the eligible-and-available set is
non-empty, `allocate_student` returns a member of that set whose scoring
tuple (occupancy, same-source-group count, same-profession count, group
number) is strictly lexicographically smaller than that of every other
member — the unique minimizer, with the group number breaking all ties. -/
theorem allocation_selects_lex_minimum (a : GroupAllocator) (p : String) (s : Bool)
    (sg m : String) (hne : get_allowed_groups a p s ≠ []) :
    ∃ g, (allocate_student a p s sg m).1 = some g ∧
      g ∈ get_allowed_groups a p s ∧
      ∀ h2 ∈ get_allowed_groups a p s, h2 ≠ g →
        score_lt (score_group a g sg m) (score_group a h2 sg m) := by
  rcases hres : (allocate_student a p s sg m).1 with _ | g
  · rw [allocate_none_iff] at hres
    exact absurd hres hne
  · obtain ⟨hmem, hmin⟩ := allocate_some_spec hres
    refine ⟨g, rfl, hmem, ?_⟩
    intro h2 hm hne2
    have h4 : (score_group a g sg m).2.2.2 ≠ (score_group a h2 sg m).2.2.2 :=
      fun hc => hne2 ((show (score_group a h2 sg m).2.2.2 = h2 from rfl) ▸
        (show (score_group a g sg m).2.2.2 = g from rfl) ▸ hc).symm
    rcases score_lt_of_ne h4 with hlt | hlt
    · exact hlt
    · exact absurd hlt (hmin h2 hm)

theorem allocation_selects_lex_minimum_witness :
    ∃ g, (allocate_student GroupAllocator.init "P1" true "GA" "M1").1 = some g ∧
      g ∈ get_allowed_groups GroupAllocator.init "P1" true ∧
      ∀ h2 ∈ get_allowed_groups GroupAllocator.init "P1" true, h2 ≠ g →
        score_lt (score_group GroupAllocator.init g "GA" "M1")
          (score_group GroupAllocator.init h2 "GA" "M1") :=
  allocation_selects_lex_minimum GroupAllocator.init "P1" true "GA" "M1" (by decide)

/-- C4: Unassignment iff exhaustion: under the capacity invariant,
`allocate_student` returns none exactly when every group of the student's
period/stage eligibility set is at capacity; in that case the main loop
records the empty string as destination and continues. -/
theorem unassigned_iff_exhausted (a : GroupAllocator) (p : String) (s : Bool)
    (sg m : String) (hinv : CapInv a) :
    ((allocate_student a p s sg m).1 = none ↔
      ∀ g ∈ eligibility_set p s, a.group_counts g = capacities g) ∧
    (∀ r : Row,
      (allocate_student a r.periode (r.stage == "oui") r.groupe r.metier).1 = none →
      (process_row a r).1.nouveau_groupe = "") := by
  constructor
  · rw [allocate_none_iff]
    unfold get_allowed_groups
    rw [List.filter_eq_nil_iff]
    constructor
    · intro hf g hg
      have hle := hinv g (eligibility_range hg).1 (eligibility_range hg).2
      have hnlt := hf g hg
      simp only [decide_eq_true_eq] at hnlt
      omega
    · intro hall g hg
      have heq := hall g hg
      simp only [decide_eq_true_eq]
      omega
  · intro r h2
    simp [process_row, h2]

theorem unassigned_iff_exhausted_witness :
    ((allocate_student GroupAllocator.init "P1" true "GA" "M1").1 = none ↔
      ∀ g ∈ eligibility_set "P1" true,
        GroupAllocator.init.group_counts g = capacities g) ∧
    (∀ r : Row,
      (allocate_student GroupAllocator.init r.periode (r.stage == "oui")
        r.groupe r.metier).1 = none →
      (process_row GroupAllocator.init r).1.nouveau_groupe = "") :=
  unassigned_iff_exhausted GroupAllocator.init "P1" true "GA" "M1" capInv_init

/-- C6: Determinism: the full allocation pass is a pure function of the
input record list, so two runs from a fresh allocator on identical input
in identical order produce identical destination assignments. -/
theorem allocation_deterministic (rows1 rows2 : List Row) (h : rows1 = rows2) :
    (run_allocation GroupAllocator.init rows1).1.map (fun r => r.nouveau_groupe) =
    (run_allocation GroupAllocator.init rows2).1.map (fun r => r.nouveau_groupe) := by
  rw [h]

theorem allocation_deterministic_witness :
    (run_allocation GroupAllocator.init []).1.map (fun r => r.nouveau_groupe) =
    (run_allocation GroupAllocator.init []).1.map (fun r => r.nouveau_groupe) :=
  allocation_deterministic [] [] rfl

/-- C7: Scenario: on a fresh allocator a single P1 student with stage flag
true is assigned a group in {17,...,23}, namely group 17, whatever its
source group and profession. -/
theorem single_p1_stage_student_lands_17 (sg m : String) :
    ∃ g, (allocate_student GroupAllocator.init "P1" true sg m).1 = some g ∧
      g ∈ [17, 18, 19, 20, 21, 22, 23] ∧ g = 17 :=
  ⟨17, rfl, by decide, rfl⟩

/-- C8: Scenario: from a state where every P2-eligible group is empty, two
consecutive students with the same source group and profession, both P2
with stage flag false, are sent to two different groups: the occupancy of
the first student's group penalizes it in the second student's scoring. -/
theorem consecutive_same_profile_split (a : GroupAllocator) (sg m : String)
    (h : ∀ g ∈ p2_groups, a.group_counts g = 0) :
    ∃ g1 g2, (allocate_student a "P2" false sg m).1 = some g1 ∧
      (allocate_student (allocate_student a "P2" false sg m).2 "P2" false sg m).1 =
        some g2 ∧
      g1 ≠ g2 := by
  have helig : eligibility_set "P2" false = p2_groups := by decide
  have hone : (1 : Nat) ∈ get_allowed_groups a "P2" false := by
    rw [mem_get_allowed_iff, helig]
    refine ⟨by decide, ?_⟩
    have := h 1 (by decide)
    have hcap : capacities 1 = 8 := by decide
    omega
  rcases hr1 : (allocate_student a "P2" false sg m).1 with _ | g1
  · rw [allocate_none_iff] at hr1
    rw [hr1] at hone
    cases hone
  · have hg1mem : g1 ∈ p2_groups := by
      have := (mem_get_allowed_iff.mp (allocate_some_spec hr1).1).1
      rw [helig] at this
      exact this
    have hg1zero := h g1 hg1mem
    -- the probe group: some P2 group different from g1
    have hprobe : (if g1 = 1 then (2 : Nat) else 1) ∈ p2_groups ∧
        (if g1 = 1 then (2 : Nat) else 1) ≠ g1 ∧
        capacities (if g1 = 1 then (2 : Nat) else 1) = 8 := by
      by_cases hg11 : g1 = 1
      · rw [if_pos hg11, hg11]
        exact ⟨by decide, by decide, by decide⟩
      · rw [if_neg hg11]
        exact ⟨by decide, fun hc => hg11 hc.symm, by decide⟩
    obtain ⟨hpmem, hpne, hpcap⟩ := hprobe
    have hc1 : (allocate_student a "P2" false sg m).2.group_counts g1 = 1 := by
      rw [allocate_some_counts hr1 g1, if_pos rfl, hg1zero]
    have hcp : (allocate_student a "P2" false sg m).2.group_counts
        (if g1 = 1 then (2 : Nat) else 1) = 0 := by
      rw [allocate_some_counts hr1 _, if_neg hpne, h _ hpmem]
    have hpav : (if g1 = 1 then (2 : Nat) else 1) ∈
        get_allowed_groups (allocate_student a "P2" false sg m).2 "P2" false := by
      rw [mem_get_allowed_iff, helig]
      refine ⟨hpmem, ?_⟩
      rw [hcp, hpcap]
      omega
    rcases hr2 : (allocate_student (allocate_student a "P2" false sg m).2
        "P2" false sg m).1 with _ | g2
    · rw [allocate_none_iff] at hr2
      rw [hr2] at hpav
      cases hpav
    · refine ⟨g1, g2, rfl, rfl, ?_⟩
      intro heq
      have hmin := (allocate_some_spec hr2).2 _ hpav
      apply hmin
      left
      show (allocate_student a "P2" false sg m).2.group_counts
          (if g1 = 1 then (2 : Nat) else 1) <
        (allocate_student a "P2" false sg m).2.group_counts g2
      rw [hcp, ← heq, hc1]
      omega

theorem consecutive_same_profile_split_witness :
    ∃ g1 g2, (allocate_student GroupAllocator.init "P2" false "GA" "M1").1 = some g1 ∧
      (allocate_student (allocate_student GroupAllocator.init "P2" false "GA" "M1").2
        "P2" false "GA" "M1").1 = some g2 ∧
      g1 ≠ g2 :=
  consecutive_same_profile_split GroupAllocator.init "GA" "M1" (fun _ _ => rfl)

/-- The record with its destination field cleared: two records agree under
`eraseDest` exactly when they differ at most in `nouveau_groupe`. -/
def eraseDest (r : Row) : Row := { r with nouveau_groupe := "" }

lemma process_row_congr (a : GroupAllocator) (r1 r2 : Row)
    (h : eraseDest r1 = eraseDest r2) :
    (process_row a r1).1.nouveau_groupe = (process_row a r2).1.nouveau_groupe ∧
    (process_row a r1).2 = (process_row a r2).2 := by
  have hper0 := congrArg Row.periode h
  have hst0 := congrArg Row.stage h
  have hgr0 := congrArg Row.groupe h
  have hmet0 := congrArg Row.metier h
  have hper : r1.periode = r2.periode := hper0
  have hst : r1.stage = r2.stage := hst0
  have hgr : r1.groupe = r2.groupe := hgr0
  have hmet : r1.metier = r2.metier := hmet0
  simp only [process_row, hper, hst, hgr, hmet]
  rcases hres : (allocate_student a r2.periode (r2.stage == "oui")
      r2.groupe r2.metier).1 with _ | g <;> simp [hres]

lemma run_dest_congr (rows1 : List Row) :
    ∀ rows2 : List Row, rows1.map eraseDest = rows2.map eraseDest →
      ∀ a : GroupAllocator,
        (run_allocation a rows1).1.map (fun r => r.nouveau_groupe) =
        (run_allocation a rows2).1.map (fun r => r.nouveau_groupe) := by
  induction rows1 with
  | nil =>
      intro rows2 h a
      cases rows2 with
      | nil => rfl
      | cons r2 rs2 => cases h
  | cons r rs ih =>
      intro rows2 h a
      cases rows2 with
      | nil => cases h
      | cons r2 rs2 =>
          simp only [List.map_cons] at h
          obtain ⟨h1, h2⟩ := List.cons.inj h
          obtain ⟨hd, hs⟩ := process_row_congr a r r2 h1
          simp only [run_allocation, List.map_cons]
          rw [hd, hs, ih rs2 h2]

/-- C10: Noninterference from pre-existing destinations: the allocation
pass overwrites `nouveau_groupe` unconditionally and never reads it, so
two runs whose inputs differ only in that field produce identical
destination assignments for every record. -/
theorem destinations_ignore_prior_destinations (rows1 rows2 : List Row)
    (h : rows1.map eraseDest = rows2.map eraseDest) :
    (run_allocation GroupAllocator.init rows1).1.map (fun r => r.nouveau_groupe) =
    (run_allocation GroupAllocator.init rows2).1.map (fun r => r.nouveau_groupe) :=
  run_dest_congr rows1 rows2 h GroupAllocator.init

theorem destinations_ignore_prior_destinations_witness :
    (run_allocation GroupAllocator.init
      [⟨"1", "M1", "C1", "GA", "non", "P1", "5"⟩]).1.map (fun r => r.nouveau_groupe) =
    (run_allocation GroupAllocator.init
      [⟨"1", "M1", "C1", "GA", "non", "P1", ""⟩]).1.map (fun r => r.nouveau_groupe) :=
  destinations_ignore_prior_destinations
    [⟨"1", "M1", "C1", "GA", "non", "P1", "5"⟩]
    [⟨"1", "M1", "C1", "GA", "non", "P1", ""⟩] (by decide)
